import Mathlib

/-!
Verification of the availability-resolver fragment of the repository: the
slot-suggestion routines in src/meeting_agent_project/app/core.py
(MeetingScheduler.suggest_alternative_slots), src/ScheduleMeeting.py
(MeetingSchedulingAgent.suggest_alternative_slots) and LogicFor1.1.py
(suggest_alternative_slots). Timestamps are modelled as integer seconds on
the UTC timeline; a Python datetime difference compared in fractional
minutes, gap.total_seconds() / 60 >= duration_minutes, is rendered exactly
as 60 * duration <= gapSeconds.
-/

/-- A raw calendar timestamp field as the Python code sees it: the key is
absent from the record, or present but fails datetime.fromisoformat, or
parses to an instant (modelled as integer seconds UTC). -/
inductive TimeField where
  | absent : TimeField
  | malformed : TimeField
  | time : Int → TimeField
  deriving DecidableEq

/-- A raw busy-event record from the calendar query: each endpoint may carry
a dateTime field, a date field (all-day events, modelled as a day index so
that day d starts at second 86400 * d UTC), both, or neither. -/
structure RawEvent where
  startDateTime : TimeField
  startDate : Option Nat
  endDateTime : TimeField
  endDate : Option Nat
  deriving DecidableEq

/-- datetime.fromisoformat on a field: succeeds only on a present, well-formed
timestamp; on a missing value (None) it raises TypeError and on a malformed
string it raises ValueError, both of which the callers catch. -/
def parseField : TimeField → Option Int
  | TimeField.time t => some t
  | _ => none

/-- core.py lines 137-141: both event endpoints are read from the dateTime
key only and parsed inside the try block; if either raises, the whole record
is skipped by the continue statement. -/
def coreParseEvent (ev : RawEvent) : Option (Int × Int) :=
  match parseField ev.startDateTime, parseField ev.endDateTime with
  | some s, some e => some (s, e)
  | _, _ => none

/-- The gap scan of core.py lines 134-151 over already-parsed intervals
(identical loop in ScheduleMeeting.py lines 190-208): walk the events in
the given order keeping previous_end; when the gap before the next event
start reaches the required duration, emit (previous_end, start); advance
previous_end to max previous_end end; after the loop, emit the final gap
against the window end when it is long enough. -/
def coreScanAux (winEnd dur prev : Int) : List (Int × Int) → List (Int × Int)
  | [] => if 60 * dur ≤ winEnd - prev then [(prev, winEnd)] else []
  | (s, e) :: rest =>
      (if 60 * dur ≤ s - prev then [(prev, s)] else []) ++
        coreScanAux winEnd dur (max prev e) rest

/-- core.py lines 134-151 with per-record parsing interleaved as in the
source: a record whose timestamps fail to parse is skipped and the scan
state is left untouched. -/
def coreLoop (winEnd dur prev : Int) : List RawEvent → List (Int × Int)
  | [] => if 60 * dur ≤ winEnd - prev then [(prev, winEnd)] else []
  | ev :: rest =>
      match coreParseEvent ev with
      | none => coreLoop winEnd dur prev rest
      | some (s, e) =>
          (if 60 * dur ≤ s - prev then [(prev, s)] else []) ++
            coreLoop winEnd dur (max prev e) rest

/-- core.py MeetingScheduler.suggest_alternative_slots, lines 109-153: the
window is the whole event-date day, from 00:00:00 to 23:59:59, that is
[dayStart, dayStart + 86399] in seconds. -/
def coreSuggest (dayStart : Int) (events : List RawEvent) (dur : Int) :
    List (Int × Int) :=
  coreLoop (dayStart + 86399) dur dayStart events

/-- ScheduleMeeting.py lines 180-181: an all-day record with date d is
expanded by string concatenation to [d T00:00:00+00:00, d T23:59:59+00:00],
that is the literal UTC offset +00:00, giving the UTC interval below. -/
def smAllDayInterval (d : Nat) : Int × Int :=
  (86400 * (d : Int), 86400 * (d : Int) + 86399)

/-- ScheduleMeeting.py line 180: the start string is the dateTime field or,
when that key is absent, the date field with T00:00:00+00:00 appended; when
both are absent the concatenation raises TypeError outside the try block
(returned as none here, aborting the whole call). -/
def smStartField (ev : RawEvent) : Option TimeField :=
  match ev.startDateTime with
  | TimeField.absent =>
      match ev.startDate with
      | some d => some (TimeField.time (smAllDayInterval d).1)
      | none => none
  | f => some f

/-- ScheduleMeeting.py line 181: end counterpart of smStartField, appending
T23:59:59+00:00 to the date field. -/
def smEndField (ev : RawEvent) : Option TimeField :=
  match ev.endDateTime with
  | TimeField.absent =>
      match ev.endDate with
      | some d => some (TimeField.time (smAllDayInterval d).2)
      | none => none
  | f => some f

/-- ScheduleMeeting.py lines 190-208: same scan as core.py, but the endpoint
strings are built with the all-day fallback before the try block; a record
whose built strings fail to parse is skipped, and a record lacking both
fields aborts the entire call (none). -/
def smLoop (winEnd dur prev : Int) : List RawEvent → Option (List (Int × Int))
  | [] => some (if 60 * dur ≤ winEnd - prev then [(prev, winEnd)] else [])
  | ev :: rest =>
      match smStartField ev, smEndField ev with
      | some fs, some fe =>
          match parseField fs, parseField fe with
          | some s, some e =>
              Option.map
                (fun l => (if 60 * dur ≤ s - prev then [(prev, s)] else []) ++ l)
                (smLoop winEnd dur (max prev e) rest)
          | _, _ => smLoop winEnd dur prev rest
      | _, _ => none

/-- ScheduleMeeting.py MeetingSchedulingAgent.suggest_alternative_slots,
lines 141-213: day window [dayStart, dayStart + 86399]. -/
def smSuggest (dayStart : Int) (events : List RawEvent) (dur : Int) :
    Option (List (Int × Int)) :=
  smLoop (dayStart + 86399) dur dayStart events

/-- LogicFor1.1.py suggest_alternative_slots, loop of lines 236-250 over
parsed intervals: unlike core.py, previous_end is set to the event end
without taking a maximum. -/
def logicScanAux (winEnd dur prev : Int) : List (Int × Int) → List (Int × Int)
  | [] => if 60 * dur ≤ winEnd - prev then [(prev, winEnd)] else []
  | (s, e) :: rest =>
      (if 60 * dur ≤ s - prev then [(prev, s)] else []) ++
        logicScanAux winEnd dur e rest

/-- LogicFor1.1.py suggest_alternative_slots, lines 219-250: an arbitrary
caller-supplied window [winStart, winEnd]; the empty busy list is handled by
its own branch that offers the whole window when long enough. -/
def logicScan (winStart winEnd dur : Int) (busy : List (Int × Int)) :
    List (Int × Int) :=
  match busy with
  | [] => if 60 * dur ≤ winEnd - winStart then [(winStart, winEnd)] else []
  | _ => logicScanAux winEnd dur winStart busy

/-- Follows the wording of the spec, section 4.1 case (b): the all-day
expansion [date 00:00:00, date 23:59:59] taken in a reference timezone whose
UTC offset is the given number of seconds, then converted to UTC. Stated
only for comparison against smAllDayInterval, which is what the code does. -/
def specAllDayInterval (offset : Int) (d : Nat) : Int × Int :=
  (86400 * (d : Int) - offset, 86400 * (d : Int) + 86399 - offset)

/-- The sort the spec prescribes for the scanner, section 4.2 step 2: busy
intervals ordered by start, with a total tie-break on the end so the order
is antisymmetric. The code itself performs no sort. -/
def intervalLE (a b : Int × Int) : Prop :=
  a.1 < b.1 ∨ (a.1 = b.1 ∧ a.2 ≤ b.2)

instance : DecidableRel intervalLE :=
  fun a b => decidable_of_iff (a.1 < b.1 ∨ (a.1 = b.1 ∧ a.2 ≤ b.2)) Iff.rfl

instance : IsTotal (Int × Int) intervalLE :=
  ⟨by intro a b; unfold intervalLE; omega⟩

instance : IsTrans (Int × Int) intervalLE :=
  ⟨by intro a b c; unfold intervalLE; omega⟩

instance : IsAntisymm (Int × Int) intervalLE :=
  ⟨by
    intro a b h1 h2
    obtain ⟨a1, a2⟩ := a
    obtain ⟨b1, b2⟩ := b
    unfold intervalLE at h1 h2
    dsimp only at h1 h2
    rw [Prod.mk.injEq]
    omega⟩

/-- Sorting busy intervals by intervalLE before scanning. -/
def sortIntervals (l : List (Int × Int)) : List (Int × Int) :=
  List.insertionSort intervalLE l

theorem coreLoop_cons_none (winEnd dur prev : Int) (ev : RawEvent)
    (rest : List RawEvent) (h : coreParseEvent ev = none) :
    coreLoop winEnd dur prev (ev :: rest) = coreLoop winEnd dur prev rest := by
  simp [coreLoop, h]

theorem coreLoop_cons_some (winEnd dur prev s e : Int) (ev : RawEvent)
    (rest : List RawEvent) (h : coreParseEvent ev = some (s, e)) :
    coreLoop winEnd dur prev (ev :: rest) =
      (if 60 * dur ≤ s - prev then [(prev, s)] else []) ++
        coreLoop winEnd dur (max prev e) rest := by
  simp [coreLoop, h]

theorem smLoop_cons_abortStart (winEnd dur prev : Int) (ev : RawEvent)
    (rest : List RawEvent) (h : smStartField ev = none) :
    smLoop winEnd dur prev (ev :: rest) = none := by
  simp [smLoop, h]

theorem smLoop_cons_abortEnd (winEnd dur prev : Int) (ev : RawEvent)
    (rest : List RawEvent) (fs : TimeField) (h1 : smStartField ev = some fs)
    (h2 : smEndField ev = none) :
    smLoop winEnd dur prev (ev :: rest) = none := by
  simp [smLoop, h1, h2]

theorem smLoop_cons_skipStart (winEnd dur prev : Int) (ev : RawEvent)
    (rest : List RawEvent) (fs fe : TimeField) (h1 : smStartField ev = some fs)
    (h2 : smEndField ev = some fe) (h3 : parseField fs = none) :
    smLoop winEnd dur prev (ev :: rest) = smLoop winEnd dur prev rest := by
  simp [smLoop, h1, h2, h3]

theorem smLoop_cons_skipEnd (winEnd dur prev : Int) (ev : RawEvent)
    (rest : List RawEvent) (fs fe : TimeField) (s : Int)
    (h1 : smStartField ev = some fs) (h2 : smEndField ev = some fe)
    (h3 : parseField fs = some s) (h4 : parseField fe = none) :
    smLoop winEnd dur prev (ev :: rest) = smLoop winEnd dur prev rest := by
  simp [smLoop, h1, h2, h3, h4]

theorem smLoop_cons_parsed (winEnd dur prev s e : Int) (ev : RawEvent)
    (rest : List RawEvent) (fs fe : TimeField) (h1 : smStartField ev = some fs)
    (h2 : smEndField ev = some fe) (h3 : parseField fs = some s)
    (h4 : parseField fe = some e) :
    smLoop winEnd dur prev (ev :: rest) =
      Option.map
        (fun l => (if 60 * dur ≤ s - prev then [(prev, s)] else []) ++ l)
        (smLoop winEnd dur (max prev e) rest) := by
  simp [smLoop, h1, h2, h3, h4]

theorem coreScanAux_start_le (winEnd dur : Int) (l : List (Int × Int)) :
    ∀ prev : Int, ∀ p ∈ coreScanAux winEnd dur prev l, prev ≤ p.1 := by
  induction l with
  | nil =>
      intro prev p hp
      simp only [coreScanAux] at hp
      rcases le_or_lt (60 * dur) (winEnd - prev) with h | h
      · rw [if_pos h] at hp
        simp only [List.mem_singleton] at hp
        subst hp
        exact le_refl _
      · rw [if_neg (not_le.mpr h)] at hp
        simp at hp
  | cons hd rest ih =>
      intro prev p hp
      obtain ⟨s, e⟩ := hd
      simp only [coreScanAux, List.mem_append] at hp
      rcases hp with hp | hp
      · rcases le_or_lt (60 * dur) (s - prev) with h | h
        · rw [if_pos h] at hp
          simp only [List.mem_singleton] at hp
          subst hp
          exact le_refl _
        · rw [if_neg (not_le.mpr h)] at hp
          simp at hp
      · exact le_trans (le_max_left prev e) (ih (max prev e) p hp)

theorem coreScanAux_sorted_disjoint (winEnd dur : Int) (l : List (Int × Int))
    (hsort : l.Pairwise (fun a b => a.1 ≤ b.1)) :
    ∀ prev : Int, ∀ p ∈ coreScanAux winEnd dur prev l, ∀ b ∈ l,
      p.2 ≤ b.1 ∨ b.2 ≤ p.1 := by
  induction l with
  | nil => intro prev p _ b hb; simp at hb
  | cons hd rest ih =>
      intro prev p hp b hb
      obtain ⟨s, e⟩ := hd
      rw [List.pairwise_cons] at hsort
      obtain ⟨hhead, hrest⟩ := hsort
      simp only [coreScanAux, List.mem_append] at hp
      simp only [List.mem_cons] at hb
      rcases hp with hp | hp
      · have hps : p = (prev, s) := by
          rcases le_or_lt (60 * dur) (s - prev) with h | h
          · rw [if_pos h] at hp
            simpa using hp
          · rw [if_neg (not_le.mpr h)] at hp
            simp at hp
        subst hps
        rcases hb with hb | hb
        · subst hb
          left
          exact le_refl _
        · left
          exact hhead b hb
      · rcases hb with hb | hb
        · subst hb
          right
          have h1 := coreScanAux_start_le winEnd dur rest (max prev e) p hp
          exact le_trans (le_max_right prev e) h1
        · exact ih hrest (max prev e) p hp b hb

theorem coreLoop_slot_length (winEnd dur : Int) (l : List RawEvent) :
    ∀ prev : Int, ∀ p ∈ coreLoop winEnd dur prev l, 60 * dur ≤ p.2 - p.1 := by
  induction l with
  | nil =>
      intro prev p hp
      simp only [coreLoop] at hp
      rcases le_or_lt (60 * dur) (winEnd - prev) with h | h
      · rw [if_pos h] at hp
        simp only [List.mem_singleton] at hp
        subst hp
        exact h
      · rw [if_neg (not_le.mpr h)] at hp
        simp at hp
  | cons ev rest ih =>
      intro prev p hp
      rcases hev : coreParseEvent ev with _ | se
      · rw [coreLoop_cons_none winEnd dur prev ev rest hev] at hp
        exact ih prev p hp
      · obtain ⟨s, e⟩ := se
        rw [coreLoop_cons_some winEnd dur prev s e ev rest hev] at hp
        rcases List.mem_append.mp hp with hp | hp
        · rcases le_or_lt (60 * dur) (s - prev) with h | h
          · rw [if_pos h] at hp
            simp only [List.mem_singleton] at hp
            subst hp
            exact h
          · rw [if_neg (not_le.mpr h)] at hp
            simp at hp
        · exact ih (max prev e) p hp

theorem logicScanAux_slot_length (winEnd dur : Int) (l : List (Int × Int)) :
    ∀ prev : Int, ∀ p ∈ logicScanAux winEnd dur prev l, 60 * dur ≤ p.2 - p.1 := by
  induction l with
  | nil =>
      intro prev p hp
      simp only [logicScanAux] at hp
      rcases le_or_lt (60 * dur) (winEnd - prev) with h | h
      · rw [if_pos h] at hp
        simp only [List.mem_singleton] at hp
        subst hp
        exact h
      · rw [if_neg (not_le.mpr h)] at hp
        simp at hp
  | cons hd rest ih =>
      intro prev p hp
      obtain ⟨s, e⟩ := hd
      simp only [logicScanAux, List.mem_append] at hp
      rcases hp with hp | hp
      · rcases le_or_lt (60 * dur) (s - prev) with h | h
        · rw [if_pos h] at hp
          simp only [List.mem_singleton] at hp
          subst hp
          exact h
        · rw [if_neg (not_le.mpr h)] at hp
          simp at hp
      · exact ih e p hp

theorem sortIntervals_perm_eq (l l' : List (Int × Int)) (h : l.Perm l') :
    sortIntervals l = sortIntervals l' := by
  apply List.eq_of_perm_of_sorted (r := intervalLE)
  · exact ((List.perm_insertionSort intervalLE l).trans h).trans
      (List.perm_insertionSort intervalLE l').symm
  · exact List.sorted_insertionSort intervalLE l
  · exact List.sorted_insertionSort intervalLE l'

theorem coreLoop_skip_middle (winEnd dur : Int) (pre post : List RawEvent)
    (ev : RawEvent) (hev : coreParseEvent ev = none) :
    ∀ prev : Int, coreLoop winEnd dur prev (pre ++ ev :: post) =
      coreLoop winEnd dur prev (pre ++ post) := by
  induction pre with
  | nil =>
      intro prev
      simpa using coreLoop_cons_none winEnd dur prev ev post hev
  | cons q rest ih =>
      intro prev
      rw [List.cons_append, List.cons_append]
      rcases hq : coreParseEvent q with _ | se
      · rw [coreLoop_cons_none winEnd dur prev q (rest ++ ev :: post) hq,
          coreLoop_cons_none winEnd dur prev q (rest ++ post) hq]
        exact ih prev
      · obtain ⟨s, e⟩ := se
        rw [coreLoop_cons_some winEnd dur prev s e q (rest ++ ev :: post) hq,
          coreLoop_cons_some winEnd dur prev s e q (rest ++ post) hq,
          ih (max prev e)]

theorem smLoop_skip_middle (winEnd dur : Int) (pre post : List RawEvent)
    (ev : RawEvent) (h1 : ev.startDateTime = TimeField.malformed)
    (h2 : ev.endDateTime = TimeField.malformed) :
    ∀ prev : Int, smLoop winEnd dur prev (pre ++ ev :: post) =
      smLoop winEnd dur prev (pre ++ post) := by
  have hs : smStartField ev = some TimeField.malformed := by
    simp [smStartField, h1]
  have he : smEndField ev = some TimeField.malformed := by
    simp [smEndField, h2]
  induction pre with
  | nil =>
      intro prev
      simpa using smLoop_cons_skipStart winEnd dur prev ev post
        TimeField.malformed TimeField.malformed hs he rfl
  | cons q rest ih =>
      intro prev
      rw [List.cons_append, List.cons_append]
      rcases hqs : smStartField q with _ | fs
      · rw [smLoop_cons_abortStart winEnd dur prev q (rest ++ ev :: post) hqs,
          smLoop_cons_abortStart winEnd dur prev q (rest ++ post) hqs]
      · rcases hqe : smEndField q with _ | fe
        · rw [smLoop_cons_abortEnd winEnd dur prev q (rest ++ ev :: post) fs hqs hqe,
            smLoop_cons_abortEnd winEnd dur prev q (rest ++ post) fs hqs hqe]
        · rcases hps : parseField fs with _ | s
          · rw [smLoop_cons_skipStart winEnd dur prev q (rest ++ ev :: post) fs fe hqs hqe hps,
              smLoop_cons_skipStart winEnd dur prev q (rest ++ post) fs fe hqs hqe hps]
            exact ih prev
          · rcases hpe : parseField fe with _ | e
            · rw [smLoop_cons_skipEnd winEnd dur prev q (rest ++ ev :: post) fs fe s hqs hqe hps hpe,
                smLoop_cons_skipEnd winEnd dur prev q (rest ++ post) fs fe s hqs hqe hps hpe]
              exact ih prev
            · rw [smLoop_cons_parsed winEnd dur prev s e q (rest ++ ev :: post) fs fe hqs hqe hps hpe,
                smLoop_cons_parsed winEnd dur prev s e q (rest ++ post) fs fe hqs hqe hps hpe,
                ih (max prev e)]

theorem smLoop_eq_coreLoop (winEnd dur : Int) (l : List RawEvent)
    (h : ∀ ev ∈ l, (∃ s, ev.startDateTime = TimeField.time s) ∧
      (∃ e, ev.endDateTime = TimeField.time e)) :
    ∀ prev : Int, smLoop winEnd dur prev l = some (coreLoop winEnd dur prev l) := by
  induction l with
  | nil => intro prev; rfl
  | cons ev rest ih =>
      intro prev
      obtain ⟨⟨s, hs⟩, ⟨e, he⟩⟩ := h ev (List.mem_cons_self ev rest)
      have h1 : smStartField ev = some (TimeField.time s) := by
        simp [smStartField, hs]
      have h2 : smEndField ev = some (TimeField.time e) := by
        simp [smEndField, he]
      have hcp : coreParseEvent ev = some (s, e) := by
        simp [coreParseEvent, hs, he, parseField]
      rw [smLoop_cons_parsed winEnd dur prev s e ev rest (TimeField.time s)
          (TimeField.time e) h1 h2 rfl rfl,
        coreLoop_cons_some winEnd dur prev s e ev rest hcp,
        ih (fun q hq => h q (List.mem_cons_of_mem ev hq)) (max prev e)]
      rfl

/-- Claim C1, counterexample to the general half: the scanner does not sort
or merge, so for the out-of-order busy list [(10:00,11:00), (9:00,10:00)]
(whose union [9:00,11:00] is contiguous) within window [9:00,12:00] with a
30-minute duration, the slot (9:00,10:00) is reported even though it lies
strictly inside the contiguous busy union. Seconds from 9:00. -/
theorem c1_counterexample :
    coreScanAux 10800 30 0 [(3600, 7200), (0, 3600)] =
      [(0, 3600), (7200, 10800)] := by decide

/-- Claim C1 as amended: for the given (already sorted) busy list
[(9:00,10:00), (9:30,10:30), (10:00,11:00)] within window [9:00,12:00] and
a 30-minute duration the scan returns exactly [(11:00,12:00)]; and in
general, whenever the busy list is sorted by start ascending, the running
previous_end maximum merges overlapping or adjacent intervals so that no
reported slot overlaps the interior of any busy interval, hence no spurious
internal gap is reported inside a contiguous busy union. -/
theorem c1_sorted_no_internal_gap :
    coreScanAux 10800 30 0 [(0, 3600), (1800, 5400), (3600, 7200)] =
      [(7200, 10800)] ∧
    ∀ (winEnd dur prev : Int) (busy : List (Int × Int)),
      busy.Pairwise (fun a b => a.1 ≤ b.1) →
      ∀ p ∈ coreScanAux winEnd dur prev busy, ∀ b ∈ busy,
        p.2 ≤ b.1 ∨ b.2 ≤ p.1 := by
  refine ⟨by decide, ?_⟩
  intro winEnd dur prev busy hsort p hp b hb
  exact coreScanAux_sorted_disjoint winEnd dur busy hsort prev p hp b hb

/-- Witness for c1_sorted_no_internal_gap at the sorted concrete list of the
claim scenario. -/
theorem c1_witness :
    ∀ p ∈ coreScanAux 10800 30 0 [(0, 3600), (1800, 5400), (3600, 7200)],
      ∀ b ∈ [((0 : Int), (3600 : Int)), (1800, 5400), (3600, 7200)],
        p.2 ≤ b.1 ∨ b.2 ≤ p.1 :=
  c1_sorted_no_internal_gap.2 10800 30 0
    [(0, 3600), (1800, 5400), (3600, 7200)] (by decide)

/-- Claim C2, counterexample: the scanner does not sort internally, so
permuting the busy list changes the output. The two lists below are
permutations of one another, yet the scans over window [9:00,12:00] with a
30-minute duration differ. -/
theorem c2_counterexample :
    List.Perm [((3600 : Int), (7200 : Int)), (0, 3600)] [(0, 3600), (3600, 7200)] ∧
    coreScanAux 10800 30 0 [(3600, 7200), (0, 3600)] ≠
      coreScanAux 10800 30 0 [(0, 3600), (3600, 7200)] := by
  constructor
  · exact List.Perm.swap (0, 3600) (3600, 7200) []
  · decide

/-- Claim C2 as amended: the code performs no internal sort and its output is
order-sensitive; if the busy list is first sorted by start (with a total
tie-break on the end), the scan result depends only on the multiset of busy
intervals: any two permutations of the same list scan to the same slots. -/
theorem c2_sorted_scan_perm_invariant (l l' : List (Int × Int))
    (h : l.Perm l') (winStart winEnd dur : Int) :
    coreScanAux winEnd dur winStart (sortIntervals l) =
      coreScanAux winEnd dur winStart (sortIntervals l') := by
  rw [sortIntervals_perm_eq l l' h]

/-- Witness for c2_sorted_scan_perm_invariant at the concrete permuted
pair. -/
theorem c2_witness :
    coreScanAux 10800 30 0 (sortIntervals [(3600, 7200), (0, 3600)]) =
      coreScanAux 10800 30 0 (sortIntervals [(0, 3600), (3600, 7200)]) :=
  c2_sorted_scan_perm_invariant [(3600, 7200), (0, 3600)]
    [(0, 3600), (3600, 7200)] (by decide) 0 10800 30

/-- Claim C3, counterexample: no InvalidDurationError exists in the code;
calling core.py suggest_alternative_slots with duration 0 and one busy
interval [00:00,01:00] on the day does not abort and returns slots,
including the zero-length slot (0,0). -/
theorem c3_counterexample :
    coreSuggest 0 [⟨TimeField.time 0, none, TimeField.time 3600, none⟩] 0 =
      [(0, 0), (3600, 86399)] := by decide

/-- Claim C3 as amended: the code validates neither input. With
min_duration 0 the scan proceeds and emits every gap of nonnegative length,
including zero-length slots; with window_start greater than window_end the
general-window variant proceeds without raising and, on an empty busy list
and positive duration, simply returns no slots. -/
theorem c3_no_validation :
    (∀ ws : Int, coreScanAux (ws + 86399) 0 ws [(ws, ws + 3600)] =
      [(ws, ws), (ws + 3600, ws + 86399)]) ∧
    (∀ ws we dur : Int, we < ws → 1 ≤ dur → logicScan ws we dur [] = []) := by
  constructor
  · intro ws
    have h2 : max ws (ws + 3600) = ws + 3600 :=
      max_eq_right (by omega)
    simp only [coreScanAux, h2]
    rw [if_pos (show (60 : Int) * 0 ≤ ws - ws by omega),
      if_pos (show (60 : Int) * 0 ≤ ws + 86399 - (ws + 3600) by omega)]
    rfl
  · intro ws we dur hw hd
    simp only [logicScan]
    rw [if_neg (show ¬ (60 : Int) * dur ≤ we - ws by omega)]

/-- Witness for c3_no_validation at concrete inputs. -/
theorem c3_witness :
    coreScanAux (0 + 86399) 0 0 [((0 : Int), 0 + 3600)] =
      [((0 : Int), 0), (0 + 3600, 0 + 86399)] ∧
    logicScan 5 0 60 [] = [] :=
  ⟨c3_no_validation.1 0, c3_no_validation.2 5 0 60 (by decide) (by decide)⟩

/-- Claim C4: with an empty busy list, both the general-window variant of
LogicFor1.1.py and the shared scan loop return exactly the whole window as
the single slot when the window length reaches 60 * duration seconds, and
no slot otherwise. -/
theorem c4_empty_busy (ws we dur : Int) :
    (60 * dur ≤ we - ws →
      logicScan ws we dur [] = [(ws, we)] ∧ coreScanAux we dur ws [] = [(ws, we)]) ∧
    (we - ws < 60 * dur →
      logicScan ws we dur [] = [] ∧ coreScanAux we dur ws [] = []) := by
  constructor
  · intro h
    constructor
    · simp only [logicScan]
      rw [if_pos h]
    · simp only [coreScanAux]
      rw [if_pos h]
  · intro h
    constructor
    · simp only [logicScan]
      rw [if_neg (not_le.mpr h)]
    · simp only [coreScanAux]
      rw [if_neg (not_le.mpr h)]

/-- Witness for c4_empty_busy: a two-hour window fits a 60-minute meeting
and yields exactly the whole window; a 30-second window does not. -/
theorem c4_witness :
    (logicScan 0 7200 60 [] = [(0, 7200)] ∧ coreScanAux 7200 60 0 [] = [(0, 7200)]) ∧
    (logicScan 0 30 60 [] = [] ∧ coreScanAux 30 60 0 [] = []) :=
  ⟨(c4_empty_busy 0 7200 60).1 (by decide), (c4_empty_busy 0 30 60).2 (by decide)⟩

/-- Claim C5: window [09:00,17:00] UTC of 2025-04-20 as seconds of day
[32400, 61200], busy [(09:00,09:30), (12:00,13:00)], duration 60 minutes:
both the shared scan loop of core.py and ScheduleMeeting.py and the
general-window variant of LogicFor1.1.py return exactly
[(09:30,12:00), (13:00,17:00)] in chronological order. -/
theorem c5_concrete_scenario :
    coreScanAux 61200 60 32400 [(32400, 34200), (43200, 46800)] =
      [(34200, 43200), (46800, 61200)] ∧
    logicScan 32400 61200 60 [(32400, 34200), (43200, 46800)] =
      [(34200, 43200), (46800, 61200)] := by
  constructor <;> decide

/-- Claim C6: busy intervals [(9:00,10:00), (10:00,11:00)] touching at the
boundary, window [9:00,11:00] (seconds from 9:00), and any positive whole
minute duration: the scan returns no slot at all, in particular no
zero-length slot at the touch point. -/
theorem c6_boundary_touch (dur : Int) (h : 1 ≤ dur) :
    coreScanAux 7200 dur 0 [(0, 3600), (3600, 7200)] = [] := by
  have hm1 : max (0 : Int) 3600 = 3600 := by decide
  have hm2 : max (3600 : Int) 7200 = 7200 := by decide
  simp only [coreScanAux, hm1, hm2]
  rw [if_neg (show ¬ (60 : Int) * dur ≤ 0 - 0 by omega),
    if_neg (show ¬ (60 : Int) * dur ≤ 3600 - 3600 by omega),
    if_neg (show ¬ (60 : Int) * dur ≤ 7200 - 7200 by omega)]
  rfl

/-- Witness for c6_boundary_touch at duration 30. -/
theorem c6_witness : coreScanAux 7200 30 0 [(0, 3600), (3600, 7200)] = [] :=
  c6_boundary_touch 30 (by decide)

/-- Claim C7: a record whose timestamps are malformed is skipped with the
scan state untouched, in both core.py (logged and continue) and
ScheduleMeeting.py, so the result equals the resolution of the input
without the bad record; one bad record never aborts the whole call. -/
theorem c7_malformed_skip (dayStart dur : Int) (pre post : List RawEvent)
    (ev : RawEvent) (h1 : ev.startDateTime = TimeField.malformed)
    (h2 : ev.endDateTime = TimeField.malformed) :
    coreSuggest dayStart (pre ++ ev :: post) dur =
      coreSuggest dayStart (pre ++ post) dur ∧
    smSuggest dayStart (pre ++ ev :: post) dur =
      smSuggest dayStart (pre ++ post) dur := by
  have hcp : coreParseEvent ev = none := by
    simp [coreParseEvent, h1, parseField]
  constructor
  · exact coreLoop_skip_middle (dayStart + 86399) dur pre post ev hcp dayStart
  · exact smLoop_skip_middle (dayStart + 86399) dur pre post ev h1 h2 dayStart

/-- Witness for c7_malformed_skip: one good record, one malformed record. -/
theorem c7_witness :
    coreSuggest 0 [⟨TimeField.time 100, none, TimeField.time 200, none⟩,
        ⟨TimeField.malformed, none, TimeField.malformed, none⟩] 60 =
      coreSuggest 0 [⟨TimeField.time 100, none, TimeField.time 200, none⟩] 60 ∧
    smSuggest 0 [⟨TimeField.time 100, none, TimeField.time 200, none⟩,
        ⟨TimeField.malformed, none, TimeField.malformed, none⟩] 60 =
      smSuggest 0 [⟨TimeField.time 100, none, TimeField.time 200, none⟩] 60 :=
  c7_malformed_skip 0 60 [⟨TimeField.time 100, none, TimeField.time 200, none⟩]
    [] ⟨TimeField.malformed, none, TimeField.malformed, none⟩ rfl rfl

/-- Claim C8, counterexample: the code expands an all-day date with the
literal string suffix +00:00, not in any caller-supplied reference
timezone; for a reference timezone at UTC offset +02:00 (7200 seconds) the
expansion the claim describes differs from what the code computes. -/
theorem c8_counterexample : smAllDayInterval 0 ≠ specAllDayInterval 7200 0 := by
  decide

/-- Claim C8 as amended: an all-day record with date d is expanded to
[d 00:00:00, d 23:59:59] interpreted directly in UTC (offset zero),
regardless of any reference timezone. -/
theorem c8_allday_utc (d : Nat) : smAllDayInterval d = specAllDayInterval 0 d := by
  unfold smAllDayInterval specAllDayInterval
  simp

/-- Claim C9, counterexample: on an all-day record (date only, no dateTime)
the two implementations disagree: core.py fails to parse the missing
dateTime and skips the record, returning the whole day, while
ScheduleMeeting.py expands the date and returns no slot. -/
theorem c9_counterexample :
    coreSuggest 0 [⟨TimeField.absent, some 0, TimeField.absent, some 0⟩] 60 =
      [(0, 86399)] ∧
    smSuggest 0 [⟨TimeField.absent, some 0, TimeField.absent, some 0⟩] 60 =
      some [] := by
  constructor <;> decide

/-- Claim C9 as amended: whenever every event carries present and parseable
dateTime start and end fields, MeetingScheduler.suggest_alternative_slots
(core.py) and MeetingSchedulingAgent.suggest_alternative_slots
(ScheduleMeeting.py) return equal slot lists for the same date and
duration. -/
theorem c9_timed_equivalence (dayStart dur : Int) (events : List RawEvent)
    (h : ∀ ev ∈ events, (∃ s, ev.startDateTime = TimeField.time s) ∧
      (∃ e, ev.endDateTime = TimeField.time e)) :
    smSuggest dayStart events dur = some (coreSuggest dayStart events dur) :=
  smLoop_eq_coreLoop (dayStart + 86399) dur events h dayStart

/-- Witness for c9_timed_equivalence at a one-event timed list. -/
theorem c9_witness :
    smSuggest 0 [⟨TimeField.time 100, none, TimeField.time 200, none⟩] 60 =
      some (coreSuggest 0 [⟨TimeField.time 100, none, TimeField.time 200, none⟩] 60) :=
  c9_timed_equivalence 0 60 [⟨TimeField.time 100, none, TimeField.time 200, none⟩]
    (by
      intro ev hev
      simp only [List.mem_singleton] at hev
      subst hev
      exact ⟨⟨100, rfl⟩, ⟨200, rfl⟩⟩)

/-- Claim C10: for any positive duration, every slot either implementation
returns is at least 60 * duration seconds long, and in particular has a
strictly positive length. -/
theorem c10_slot_min_length (dur : Int) (hdur : 1 ≤ dur) :
    (∀ (dayStart : Int) (events : List RawEvent),
      ∀ p ∈ coreSuggest dayStart events dur, 60 * dur ≤ p.2 - p.1 ∧ p.1 < p.2) ∧
    (∀ (ws we : Int) (busy : List (Int × Int)),
      ∀ p ∈ logicScan ws we dur busy, 60 * dur ≤ p.2 - p.1 ∧ p.1 < p.2) := by
  constructor
  · intro dayStart events p hp
    have h := coreLoop_slot_length (dayStart + 86399) dur events dayStart p hp
    exact ⟨h, by omega⟩
  · intro ws we busy p hp
    cases busy with
    | nil =>
        simp only [logicScan] at hp
        rcases le_or_lt (60 * dur) (we - ws) with h | h
        · rw [if_pos h] at hp
          simp only [List.mem_singleton] at hp
          subst hp
          exact ⟨h, by omega⟩
        · rw [if_neg (not_le.mpr h)] at hp
          simp at hp
    | cons hd tl =>
        have h := logicScanAux_slot_length we dur (hd :: tl) ws p hp
        exact ⟨h, by omega⟩

/-- Witness for c10_slot_min_length at duration 60 with one timed event and
one nonempty general-window scan. -/
theorem c10_witness :
    (∀ p ∈ coreSuggest 0 [⟨TimeField.time 43200, none, TimeField.time 46800, none⟩] 60,
      60 * 60 ≤ p.2 - p.1 ∧ p.1 < p.2) ∧
    (∀ p ∈ logicScan 32400 61200 60 [(32400, 34200)],
      60 * 60 ≤ p.2 - p.1 ∧ p.1 < p.2) :=
  ⟨fun p hp => (c10_slot_min_length 60 (by decide)).1 0
      [⟨TimeField.time 43200, none, TimeField.time 46800, none⟩] p hp,
    fun p hp => (c10_slot_min_length 60 (by decide)).2 32400 61200
      [(32400, 34200)] p hp⟩
